import Mathlib

/-!
Shallow embedding of the socket-server core (`src/index.ts`).

The server keeps three pieces of shared state:
* `sockets` — the live connections (socket id ↦ the handshake auth name, when
  it was a string; `io.sockets.sockets` together with each handler closure's
  `displayName`),
* `adapter` — `io.sockets.adapter.rooms`, the socket.io room map (a socket is
  automatically a member of the room named by its own id from the moment it
  connects),
* `rooms` — the module-level `rooms: Record<string, RoomState>` object holding
  each room's timer record.

Handlers are translated line by line from the source.  Emissions are modelled
as `Emit` values (one per `.emit(...)` call, carrying the recipient set the
channel resolves to at that moment); `deliveries` flattens them to
per-recipient messages.  socket.io semantics that matter here: `io.to(x)`
resolves `x` in the room map (a live socket is reachable through the room named
by its id); during the `disconnecting` event the socket has not yet left its
rooms — the adapter still contains it; after the handlers run, socket.io
removes the socket from every room and drops empty rooms.
-/

namespace SocketServer

/-- `RoomState` from the source: `{ startedAt: number | null; duration: number }`. -/
structure RoomState where
  startedAt : Option Nat
  duration : Nat
deriving Repr, DecidableEq

/-- Association-list lookup (first match), modelling `Map.get` / record indexing. -/
def alook {α : Type} : List (String × α) → String → Option α
  | [], _ => none
  | p :: t, x => if p.1 = x then some p.2 else alook t x

/-- The server's shared mutable state. -/
structure ServerState where
  sockets : List (String × Option String)
  adapter : List (String × List String)
  rooms : List (String × RoomState)
deriving Repr, DecidableEq

/-- Outbound payloads (the server → client events of the source). -/
inductive Payload where
  | needOffer (targetId : String)
  | participants (list : List (String × String))
  | timerStart (startedAt : Nat) (duration : Nat)
  | timerState (startedAt : Option Nat) (duration : Nat)
  | chatMsg (sender : String) (name : String) (text : String)
  | offerMsg (sender : String) (sdp : String)
  | answerMsg (sender : String) (sdp : String)
  | iceMsg (sender : String) (candidate : String)
deriving Repr, DecidableEq

/-- One `.emit` call: the recipients its channel resolves to, and the payload. -/
structure Emit where
  recipients : List String
  payload : Payload
deriving Repr, DecidableEq

/-- Flatten emissions to per-recipient deliveries. -/
def deliveries : List Emit → List (String × Payload)
  | [] => []
  | e :: t => e.recipients.map (fun x => (x, e.payload)) ++ deliveries t

/-- JavaScript falsiness of `startedAt : number | null` (`!roomState.startedAt`). -/
def jsFalsy : Option Nat → Bool
  | none => true
  | some t => t == 0

/-- JavaScript truthiness of an optional string field (`undefined`/`""` are falsy). -/
def jsTruthyStr : Option String → Bool
  | none => false
  | some s => !(s == "")

/-- The whitespace characters `String.prototype.trim` strips (ASCII subset). -/
def jsWhitespace (c : Char) : Bool :=
  c == ' ' || c == '\t' || c == '\n' || c == '\r' || c == '\x0b' || c == '\x0c'

/-- Drop leading JS whitespace from a character list. -/
def dropLeadingWs : List Char → List Char
  | [] => []
  | c :: t => if jsWhitespace c then dropLeadingWs t else c :: t

/-- JavaScript `s.trim()`: strip whitespace from both ends. -/
def jsTrim (s : String) : String :=
  ⟨(dropLeadingWs (dropLeadingWs s.data.reverse).reverse)⟩

/-- Is `sid` a live connection (`io.sockets.sockets.get(sid)` succeeds)? -/
def isLive (st : ServerState) (sid : String) : Bool :=
  (alook st.sockets sid).isSome

/-- `io.sockets.adapter.rooms.get(room) ?? new Set()`, as an ordered list. -/
def adapterGet (st : ServerState) (r : String) : List String :=
  (alook st.adapter r).getD []

/-- The display name the source computes:
`typeof s?.handshake?.auth?.name === "string" ? s.handshake.auth.name : "Guest"`. -/
def displayNameOf (st : ServerState) (sid : String) : String :=
  match alook st.sockets sid with
  | some (some n) => n
  | _ => "Guest"

/-- `socket.join(room)`: insert `sid` into the adapter room `r` (a Set: no
duplicates, insertion order kept; the room is created when absent). -/
def addToRoom : List (String × List String) → String → String → List (String × List String)
  | [], r, sid => [(r, [sid])]
  | p :: t, r, sid =>
    if p.1 = r then (p.1, if sid ∈ p.2 then p.2 else p.2 ++ [sid]) :: t
    else p :: addToRoom t r sid

/-- socket.io cleanup after `disconnecting`: the socket leaves every room, and
rooms that become empty are dropped from the adapter. -/
def adapterRemove (ad : List (String × List String)) (sid : String) :
    List (String × List String) :=
  (ad.map (fun p => (p.1, p.2.filter (fun x => decide (x ≠ sid))))).filter
    (fun p => decide (p.2 ≠ []))

/-- `roomState.startedAt = now` on the record stored under `r`. -/
def setStarted (rs : List (String × RoomState)) (r : String) (now : Nat) :
    List (String × RoomState) :=
  rs.map (fun p => if p.1 = r then (p.1, { p.2 with startedAt := some now }) else p)

/-- `broadcastParticipants(room)` from the source: read the adapter room, map
each member to `{id, name}` (name defaulting to `"Guest"`), and emit a
`participants` event to the room. -/
def broadcastParticipants (st : ServerState) (room : String) : List Emit :=
  [⟨adapterGet st room,
    .participants ((adapterGet st room).map (fun sid => (sid, displayNameOf st sid)))⟩]

/-- The `chat` handler. -/
def chatHandler (st : ServerState) (sid : String) (room : Option String)
    (text : Option String) : ServerState × List Emit :=
  match room with
  | none => (st, [])
  | some r =>
    if r = "" then (st, [])
    else
      let msg := jsTrim (text.getD "")
      if msg = "" then (st, [])
      else (st, [⟨adapterGet st r, .chatMsg sid (displayNameOf st sid) msg⟩])

/-- The `join` handler, in source order: validate the room string, `socket.join`,
lazily create the room record, run the timer rule, send `timer-state` to the
joiner, `need-offer` to the other members, then `broadcastParticipants`. -/
def joinHandler (st : ServerState) (sid : String) (room : Option String)
    (now : Nat) : ServerState × List Emit :=
  match room with
  | none => (st, [])
  | some r =>
    if r = "" then (st, [])
    else
      let ad1 := addToRoom st.adapter r sid
      let rs1 := if (alook st.rooms r).isSome then st.rooms
                 else st.rooms ++ [(r, ⟨none, 60⟩)]
      let st1 : ServerState := { st with adapter := ad1, rooms := rs1 }
      let roomState := (alook rs1 r).getD ⟨none, 60⟩
      let count := (adapterGet st1 r).length
      let fire := decide (2 ≤ count) && jsFalsy roomState.startedAt
      let rs2 := if fire then setStarted rs1 r now else rs1
      let st2 : ServerState := { st1 with rooms := rs2 }
      let evFire : List Emit :=
        if fire then [⟨adapterGet st1 r, .timerStart now roomState.duration⟩] else []
      let startedNow := if fire then some now else roomState.startedAt
      (st2,
        evFire
        ++ [⟨[sid], .timerState startedNow roomState.duration⟩]
        ++ [⟨(adapterGet st1 r).filter (fun x => decide (x ≠ sid)), .needOffer sid⟩]
        ++ broadcastParticipants st2 r)

/-- The `offer` handler: `if (to && sdp) io.to(to).emit("offer", ...)`. -/
def offerHandler (st : ServerState) (sid : String) (to_ : Option String)
    (sdp : Option String) : ServerState × List Emit :=
  if jsTruthyStr to_ && sdp.isSome then
    (st, [⟨adapterGet st (to_.getD ""), .offerMsg sid (sdp.getD "")⟩])
  else (st, [])

/-- The `answer` handler, symmetric to `offer`. -/
def answerHandler (st : ServerState) (sid : String) (to_ : Option String)
    (sdp : Option String) : ServerState × List Emit :=
  if jsTruthyStr to_ && sdp.isSome then
    (st, [⟨adapterGet st (to_.getD ""), .answerMsg sid (sdp.getD "")⟩])
  else (st, [])

/-- The `ice-candidate` handler, symmetric to `offer`. -/
def iceHandler (st : ServerState) (sid : String) (to_ : Option String)
    (candidate : Option String) : ServerState × List Emit :=
  if jsTruthyStr to_ && candidate.isSome then
    (st, [⟨adapterGet st (to_.getD ""), .iceMsg sid (candidate.getD "")⟩])
  else (st, [])

/-- The `for (const room of socket.rooms)` loop of the `disconnecting` handler:
skip the socket's own-id room, broadcast participants, and delete the room
record when the adapter room is empty (the adapter still contains the
disconnecting socket at this point). -/
def discLoop (st : ServerState) (sid : String) : List String → ServerState × List Emit
  | [] => (st, [])
  | r :: rest =>
    if r = sid then discLoop st sid rest
    else
      let evs := broadcastParticipants st r
      let size := (adapterGet st r).length
      let st' := if size = 0 then
          { st with rooms := st.rooms.filter (fun p => decide (p.1 ≠ r)) }
        else st
      let res := discLoop st' sid rest
      (res.1, evs ++ res.2)

/-- A full disconnect: run the `disconnecting` handler over the socket's rooms,
then the transport cleanup (leave all rooms, drop the session). -/
def disconnectHandler (st : ServerState) (sid : String) : ServerState × List Emit :=
  let rs := (st.adapter.filter (fun p => decide (sid ∈ p.2))).map Prod.fst
  let res := discLoop st sid rs
  ({ res.1 with sockets := res.1.sockets.filter (fun p => decide (p.1 ≠ sid)), adapter := adapterRemove res.1.adapter sid }, res.2)

/-- Inbound operations: a connection handshake, the five client events, and the
transport-level disconnect. -/
inductive Op where
  | connect (sid : String) (authName : Option String)
  | join (sid : String) (room : Option String) (now : Nat)
  | chat (sid : String) (room : Option String) (text : Option String)
  | offer (sid : String) (to_ : Option String) (sdp : Option String)
  | answer (sid : String) (to_ : Option String) (sdp : Option String)
  | ice (sid : String) (to_ : Option String) (candidate : Option String)
  | disconnect (sid : String)
deriving Repr, DecidableEq

/-- One step of the server: handlers only exist for live connections; a
connection handshake registers the session and the own-id adapter room. -/
def step (st : ServerState) : Op → ServerState × List Emit
  | .connect sid nm =>
    if isLive st sid then (st, [])
    else ({ st with sockets := st.sockets ++ [(sid, nm)], adapter := addToRoom st.adapter sid sid }, [])
  | .join sid r now => if isLive st sid then joinHandler st sid r now else (st, [])
  | .chat sid r t => if isLive st sid then chatHandler st sid r t else (st, [])
  | .offer sid t s => if isLive st sid then offerHandler st sid t s else (st, [])
  | .answer sid t s => if isLive st sid then answerHandler st sid t s else (st, [])
  | .ice sid t c => if isLive st sid then iceHandler st sid t c else (st, [])
  | .disconnect sid => if isLive st sid then disconnectHandler st sid else (st, [])

/-- One executed step of a trace: state before, the operation, the emissions it
produced, and the state after. -/
structure StepRec where
  pre : ServerState
  op : Op
  emits : List Emit
  post : ServerState
deriving Repr, DecidableEq

/-- Execute a list of operations from a state, recording every step. -/
def execFrom (st : ServerState) : List Op → List StepRec
  | [] => []
  | op :: ops => ⟨st, op, (step st op).2, (step st op).1⟩ :: execFrom (step st op).1 ops

/-- The empty initial state (process start). -/
def initState : ServerState := ⟨[], [], []⟩

/-- The step records of a trace run from the initial state. -/
def execTrace (ops : List Op) : List StepRec := execFrom initState ops

/-- The state after running a list of operations. -/
def runState (st : ServerState) (ops : List Op) : ServerState :=
  ops.foldl (fun s op => (step s op).1) st

/-- The membership of room `r` right after `socket.join(room)` by `sid`
(a set insertion: unchanged when already present, appended otherwise). -/
def joinedMembers (st : ServerState) (r sid : String) : List String :=
  if sid ∈ adapterGet st r then adapterGet st r else adapterGet st r ++ [sid]

/-- The room record the join handler reads, after its lazy initialization. -/
def roomRec0 (st : ServerState) (r : String) : RoomState :=
  (alook st.rooms r).getD ⟨none, 60⟩

/-- The timer rule's guard in the join handler:
`count >= 2 && !roomState.startedAt`, evaluated after the membership update. -/
def fireCond (st : ServerState) (r sid : String) : Bool :=
  decide (2 ≤ (joinedMembers st r sid).length) && jsFalsy (roomRec0 st r).startedAt

/-- The room store after a successful `join`: lazy initialization followed by
the timer rule's conditional `startedAt` write. -/
def roomsAfterJoin (st : ServerState) (r sid : String) (now : Nat) :
    List (String × RoomState) :=
  let rs1 := if (alook st.rooms r).isSome then st.rooms
             else st.rooms ++ [(r, ⟨none, 60⟩)]
  if fireCond st r sid then setStarted rs1 r now else rs1

/-- Selector for `timer-state` payloads. -/
def isTimerState : Payload → Bool
  | .timerState _ _ => true
  | _ => false

/-- Scenario state: Alice and Bob connected and both joined room `"r1"`. -/
def c1state : ServerState :=
  runState initState [.connect "A" (some "Alice"), .connect "B" (some "Bob"),
    .join "A" (some "r1") 1, .join "B" (some "r1") 2]

/-- Scenario state: two guests joined room `"r1"` (timer started at 6), then
both fully disconnected, leaving the room with zero members. -/
def c2state : ServerState :=
  runState initState [.connect "A" none, .connect "B" none,
    .join "A" (some "r1") 5, .join "B" (some "r1") 6,
    .disconnect "A", .disconnect "B"]

/-- Scenario state as `c2state`, with a fresh connection `"C"` added afterwards. -/
def c2stateC : ServerState := runState c2state [.connect "C" none]

/-- Scenario state: three connections, of which `"A"` and `"B"` joined room
`"r1"`; `"r1"` is a room name, not a live connection id. -/
def c6state : ServerState :=
  runState initState [.connect "A" none, .connect "B" none, .connect "C" none,
    .join "A" (some "r1") 1, .join "B" (some "r1") 2]

/-- Scenario trace: two connections join room `"r1"`, then `"B"` joins again. -/
def rejoinOps : List Op :=
  [.connect "A" none, .connect "B" none,
   .join "A" (some "r1") 1, .join "B" (some "r1") 2, .join "B" (some "r1") 3]

/-- The step of `rejoinOps` at which `"A"` first joins (creating the room). -/
def stepJoinA : StepRec := (execTrace rejoinOps).get ⟨2, by decide⟩

/-- The step of `rejoinOps` at which `"B"` joins (the room record exists). -/
def stepJoinB : StepRec := (execTrace rejoinOps).get ⟨3, by decide⟩

/-- The step of `rejoinOps` at which `"B"` joins a second time. -/
def stepRejoinB : StepRec := (execTrace rejoinOps).get ⟨4, by decide⟩

/-- Selector for `timer-start` payloads. -/
def isTimerStart : Payload → Bool
  | .timerStart _ _ => true
  | _ => false

/-- Well-formedness of one operation with respect to a namespace discipline:
connection ids are drawn from `ids` (the server generates them), client room
names from `rms`, and clock readings (`Date.now()`) are positive. -/
def opWF (ids rms : List String) : Op → Bool
  | .connect sid _ => decide (sid ∈ ids)
  | .join _ room now =>
    (match room with
     | none => true
     | some s => decide (s ∈ rms)) && decide (0 < now)
  | _ => true

/-- Well-formedness of a trace: socket ids and client room names never collide
(socket ids are long random strings), and every operation is well formed. -/
def traceWF (ids rms : List String) (ops : List Op) : Bool :=
  ids.all (fun x => decide (x ∉ rms)) && ops.all (opWF ids rms)

/-- The reachable-state invariant: adapter keys are well named, the own-id room
of a live socket is the singleton of its owner, every client adapter room has a
record, any room with two or more members has a started (non-`none`) timer, and
all stored timestamps are positive. -/
structure Inv (ids rms : List String) (st : ServerState) : Prop where
  nodupA : (st.adapter.map Prod.fst).Nodup
  idRoom : ∀ p ∈ st.adapter, p.1 ∈ ids → isLive st p.1 = true ∧ p.2 = [p.1]
  names : ∀ p ∈ st.adapter, p.1 ∈ ids ∨ p.1 ∈ rms
  hasRec : ∀ p ∈ st.adapter, p.1 ∉ ids → (alook st.rooms p.1).isSome = true
  twoStarted : ∀ p ∈ st.adapter, 2 ≤ p.2.length →
    ∃ rec, alook st.rooms p.1 = some rec ∧ rec.startedAt ≠ none
  tsPos : ∀ p ∈ st.rooms, ∀ t, p.2.startedAt = some t → 0 < t

/-- Does this operation, from this state, emit a `timer-start` for room `r`? -/
def firesFor (st : ServerState) (op : Op) (r : String) : Bool :=
  match op with
  | .join _ room _ =>
    room == some r && (step st op).2.any (fun e => isTimerStart e.payload)
  | _ => false

/-- How many operations of the trace emit a `timer-start` for room `r`. -/
def countFires (st : ServerState) (ops : List Op) (r : String) : Nat :=
  match ops with
  | [] => 0
  | op :: t => (if firesFor st op r then 1 else 0) + countFires (step st op).1 t r

theorem alook_append_of_some {α : Type} {l1 : List (String × α)} {k : String} {v : α}
    (l2 : List (String × α)) (h : alook l1 k = some v) :
    alook (l1 ++ l2) k = some v := by
  induction l1 with
  | nil => simp [alook] at h
  | cons p t ih =>
    by_cases hpk : p.1 = k
    · simp [alook, hpk] at h ⊢
      exact h
    · simp only [List.cons_append, alook, hpk, if_neg, if_false] at h ⊢
      exact ih h

theorem alook_append_of_none {α : Type} {l1 : List (String × α)} {k : String}
    (l2 : List (String × α)) (h : alook l1 k = none) :
    alook (l1 ++ l2) k = alook l2 k := by
  induction l1 with
  | nil => simp
  | cons p t ih =>
    by_cases hpk : p.1 = k
    · simp [alook, hpk] at h
    · simp only [List.cons_append, alook, hpk, if_neg, if_false] at h ⊢
      exact ih h

theorem alook_addToRoom (ad : List (String × List String)) (r sid k : String) :
    alook (addToRoom ad r sid) k =
      if k = r then
        some (if sid ∈ (alook ad r).getD [] then (alook ad r).getD []
              else (alook ad r).getD [] ++ [sid])
      else alook ad k := by
  induction ad with
  | nil =>
    by_cases hkr : k = r <;> simp [addToRoom, alook, hkr]
    intro h
    exact absurd h.symm hkr
  | cons p t ih =>
    by_cases hpr : p.1 = r
    · by_cases hkr : k = r
      · simp [addToRoom, alook, hpr, hkr, hpr.trans hkr.symm]
      · have hpk : ¬ p.1 = k := fun h => hkr (h ▸ hpr)
        have hrk : ¬ r = k := fun h => hkr h.symm
        simp [addToRoom, alook, hpr, hkr, hpk, hrk]
    · by_cases hpk : p.1 = k
      · have hkr : ¬ k = r := fun h => hpr (hpk.symm ▸ h)
        simp [addToRoom, alook, hpr, hpk, hkr]
      · simp [addToRoom, alook, hpr, hpk, ih]

theorem alook_setStarted (rs : List (String × RoomState)) (r : String) (now : Nat)
    (k : String) :
    alook (setStarted rs r now) k =
      if k = r then (alook rs k).map (fun q => ⟨some now, q.duration⟩)
      else alook rs k := by
  induction rs with
  | nil => by_cases hkr : k = r <;> simp [setStarted, alook, hkr]
  | cons p t ih =>
    by_cases hpr : p.1 = r
    · by_cases hkr : k = r
      · simp [setStarted, alook, hpr, hkr, hpr.trans hkr.symm]
      · have hpk : ¬ p.1 = k := fun h => hkr (h ▸ hpr)
        have hrk : ¬ r = k := fun h => hkr h.symm
        simp only [setStarted] at ih ⊢
        simp [alook, hpr, hkr, hpk, hrk, ih]
    · by_cases hpk : p.1 = k
      · have hkr : ¬ k = r := fun h => hpr (hpk.symm ▸ h)
        simp only [setStarted] at ih ⊢
        simp [alook, hpr, hpk, hkr]
      · simp only [setStarted] at ih ⊢
        simp [alook, hpr, hpk, ih]

theorem alook_filter_ne {α : Type} (l : List (String × α)) (x k : String) (h : k ≠ x) :
    alook (l.filter (fun p => decide (p.1 ≠ x))) k = alook l k := by
  induction l with
  | nil => simp
  | cons p t ih =>
    simp only [ne_eq, decide_not] at ih ⊢
    have hxk : ¬ x = k := fun hh => h hh.symm
    by_cases hpx : p.1 = x
    · have hpk : ¬ p.1 = k := fun hh => h (hh ▸ hpx)
      simp [List.filter_cons, hpx, alook, hpk, ih, h, hxk]
    · by_cases hpk : p.1 = k <;> simp [List.filter_cons, hpx, alook, hpk, ih, h, hxk]

theorem deliveries_append (a b : List Emit) :
    deliveries (a ++ b) = deliveries a ++ deliveries b := by
  induction a with
  | nil => simp [deliveries]
  | cons e t ih => simp [deliveries, ih]

/-- The room record read by the join handler after lazy initialization. -/
theorem roomsInit_alook (rs : List (String × RoomState)) (r : String) :
    alook (if (alook rs r).isSome then rs else rs ++ [(r, ⟨none, 60⟩)]) r
      = some ((alook rs r).getD ⟨none, 60⟩) := by
  cases h : alook rs r with
  | none => simp [h, alook_append_of_none _ h, alook]
  | some v => simp [h]

theorem roomsInit_alook_ne (rs : List (String × RoomState)) (r k : String)
    (hkr : k ≠ r) :
    alook (if (alook rs r).isSome then rs else rs ++ [(r, ⟨none, 60⟩)]) k
      = alook rs k := by
  cases h : alook rs r with
  | none =>
    have hrk : ¬ r = k := fun hh => hkr hh.symm
    cases hk : alook rs k with
    | none => simp [h, hk, alook_append_of_none _ hk, alook, hkr, hrk]
    | some w => simp [h, hk, alook_append_of_some _ hk]
  | some v => simp [h]

/-- Normal form of a successful `join`: the handler's state change and its
emissions, in source order. -/
theorem joinHandler_spec (st : ServerState) (sid r : String) (now : Nat)
    (hr : r ≠ "") :
    joinHandler st sid (some r) now =
      (⟨st.sockets, addToRoom st.adapter r sid, roomsAfterJoin st r sid now⟩,
       (if fireCond st r sid then
          [⟨joinedMembers st r sid, .timerStart now (roomRec0 st r).duration⟩] else [])
       ++ [⟨[sid], .timerState
              (if fireCond st r sid then some now else (roomRec0 st r).startedAt)
              (roomRec0 st r).duration⟩]
       ++ [⟨(joinedMembers st r sid).filter (fun x => decide (x ≠ sid)), .needOffer sid⟩]
       ++ [⟨joinedMembers st r sid,
            .participants ((joinedMembers st r sid).map
              (fun m => (m, displayNameOf st m)))⟩]) := by
  have hms : alook (addToRoom st.adapter r sid) r = some (joinedMembers st r sid) := by
    rw [alook_addToRoom]
    simp [joinedMembers, adapterGet]
  have hrs1 : alook (if (alook st.rooms r).isSome then st.rooms
      else st.rooms ++ [(r, ⟨none, 60⟩)]) r = some (roomRec0 st r) :=
    roomsInit_alook st.rooms r
  simp only [joinHandler, hr, if_neg, if_false, broadcastParticipants, adapterGet,
    displayNameOf, hms, hrs1, fireCond, roomRec0, roomsAfterJoin]
  simp [adapterGet, hms, displayNameOf]

theorem alook_eq_none {α : Type} (l : List (String × α)) (k : String) :
    alook l k = none ↔ k ∉ l.map Prod.fst := by
  induction l with
  | nil => simp [alook]
  | cons p t ih =>
    by_cases hpk : p.1 = k
    · simp [alook, hpk]
    · have hkp : ¬ k = p.1 := fun h => hpk h.symm
      simp [alook, hpk, hkp, ih]

theorem alook_some_mem {α : Type} {l : List (String × α)} {k : String} {v : α}
    (h : alook l k = some v) : (k, v) ∈ l := by
  induction l with
  | nil => simp [alook] at h
  | cons p t ih =>
    by_cases hpk : p.1 = k
    · simp [alook, hpk] at h
      exact List.mem_cons.mpr (Or.inl (by rw [← hpk, ← h]))
    · simp only [alook, hpk, if_neg, if_false] at h
      exact List.mem_cons_of_mem _ (ih h)

theorem alook_of_mem_nodup {α : Type} {l : List (String × α)} {p : String × α}
    (hp : p ∈ l) (hnd : (l.map Prod.fst).Nodup) : alook l p.1 = some p.2 := by
  induction l with
  | nil => simp at hp
  | cons q t ih =>
    rcases List.mem_cons.mp hp with h | h
    · subst h; simp [alook]
    · have hq : q.1 ≠ p.1 := by
        intro he
        have : p.1 ∈ t.map Prod.fst := List.mem_map_of_mem Prod.fst h
        rw [← he] at this
        exact (List.nodup_cons.mp (by simpa using hnd)).1 this
      simp only [alook, hq, if_neg, if_false]
      exact ih h (List.nodup_cons.mp (by simpa using hnd)).2

theorem addToRoom_keys (ad : List (String × List String)) (r sid : String) :
    (addToRoom ad r sid).map Prod.fst =
      if (alook ad r).isSome then ad.map Prod.fst else ad.map Prod.fst ++ [r] := by
  induction ad with
  | nil => simp [addToRoom, alook]
  | cons p t ih =>
    by_cases hpr : p.1 = r <;> simp [addToRoom, alook, hpr, ih]
    split <;> simp

theorem setStarted_mem {rs : List (String × RoomState)} {r : String} {now : Nat}
    {p : String × RoomState} (hp : p ∈ setStarted rs r now) :
    p ∈ rs ∨ ∃ q ∈ rs, p = (q.1, ⟨some now, q.2.duration⟩) := by
  obtain ⟨q, hq, he⟩ := List.mem_map.mp hp
  by_cases hqr : q.1 = r
  · right
    exact ⟨q, hq, by rw [← he]; simp [hqr]⟩
  · left
    rw [← he]
    simpa [hqr] using hq

theorem adapterRemove_mem {ad : List (String × List String)} {sid : String}
    {p : String × List String} (hp : p ∈ adapterRemove ad sid) :
    p.2 ≠ [] ∧ ∃ q ∈ ad, p.1 = q.1 ∧ p.2 = q.2.filter (fun x => decide (x ≠ sid)) := by
  unfold adapterRemove at hp
  have hp2 := List.of_mem_filter hp
  have hp1 := List.mem_of_mem_filter hp
  obtain ⟨q, hq, he⟩ := List.mem_map.mp hp1
  refine ⟨by simpa using hp2, q, hq, ?_, ?_⟩ <;> rw [← he]

theorem adapterRemove_keys_sublist (ad : List (String × List String)) (sid : String) :
    ((adapterRemove ad sid).map Prod.fst).Sublist (ad.map Prod.fst) := by
  unfold adapterRemove
  have h1 : ((ad.map (fun p => (p.1, p.2.filter (fun x => decide (x ≠ sid))))).map
      Prod.fst) = ad.map Prod.fst := by
    rw [List.map_map]
    rfl
  calc ((ad.map (fun p => (p.1, p.2.filter (fun x => decide (x ≠ sid))))).filter
          (fun p => decide (p.2 ≠ []))).map Prod.fst
      |>.Sublist ((ad.map (fun p => (p.1, p.2.filter (fun x => decide (x ≠ sid))))).map
          Prod.fst) := List.Sublist.map Prod.fst (List.filter_sublist _)
    _ = ad.map Prod.fst := h1

theorem roomsAfterJoin_alook_self (st : ServerState) (r sid : String) (now : Nat) :
    alook (roomsAfterJoin st r sid now) r =
      some (if fireCond st r sid then ⟨some now, (roomRec0 st r).duration⟩
            else roomRec0 st r) := by
  by_cases hf : fireCond st r sid <;>
    simp [roomsAfterJoin, hf, alook_setStarted, roomsInit_alook, roomRec0]

theorem roomsAfterJoin_alook_ne (st : ServerState) (r sid : String) (now : Nat)
    (k : String) (hk : k ≠ r) :
    alook (roomsAfterJoin st r sid now) k = alook st.rooms k := by
  by_cases hf : fireCond st r sid <;>
    simp [roomsAfterJoin, hf, alook_setStarted, hk,
      roomsInit_alook_ne st.rooms r k hk]

theorem roomsAfterJoin_mem {st : ServerState} {r sid : String} {now : Nat}
    {p : String × RoomState} (hp : p ∈ roomsAfterJoin st r sid now) :
    p ∈ st.rooms ∨ p = (r, ⟨none, 60⟩) ∨
      ∃ q : String × RoomState,
        (q ∈ st.rooms ∨ q = (r, (⟨none, 60⟩ : RoomState))) ∧
        p = (q.1, ⟨some now, q.2.duration⟩) := by
  have hrs1 : ∀ p' : String × RoomState,
      p' ∈ (if (alook st.rooms r).isSome then st.rooms
            else st.rooms ++ [(r, (⟨none, 60⟩ : RoomState))]) →
      p' ∈ st.rooms ∨ p' = (r, (⟨none, 60⟩ : RoomState)) := by
    intro p' hp'
    by_cases hs : (alook st.rooms r).isSome
    · left; simpa [hs] using hp'
    · simp only [hs, if_neg, if_false] at hp'
      rcases List.mem_append.mp hp' with h | h
      · exact Or.inl h
      · exact Or.inr (by simpa using h)
  by_cases hf : fireCond st r sid
  · simp only [roomsAfterJoin, hf, if_true] at hp
    rcases setStarted_mem hp with h | ⟨q, hq, he⟩
    · rcases hrs1 _ h with h' | h'
      · exact Or.inl h'
      · exact Or.inr (Or.inl h')
    · exact Or.inr (Or.inr ⟨q, hrs1 _ hq, he⟩)
  · simp only [roomsAfterJoin, hf, if_neg, if_false] at hp
    rcases hrs1 _ hp with h' | h'
    · exact Or.inl h'
    · exact Or.inr (Or.inl h')

theorem step_chat_state (st : ServerState) (sid : String) (r text : Option String) :
    (step st (.chat sid r text)).1 = st := by
  by_cases hl : isLive st sid = true <;>
    cases r with
    | none => simp [step, hl, chatHandler]
    | some rr =>
      by_cases hrr : rr = "" <;>
        by_cases hm : jsTrim (text.getD "") = "" <;>
          simp [step, hl, chatHandler, hrr, hm]

theorem step_offer_state (st : ServerState) (sid : String) (to_ sdp : Option String) :
    (step st (.offer sid to_ sdp)).1 = st := by
  by_cases hl : isLive st sid = true <;>
    by_cases ht : jsTruthyStr to_ && sdp.isSome <;>
      simp [step, hl, offerHandler, ht]

theorem step_answer_state (st : ServerState) (sid : String) (to_ sdp : Option String) :
    (step st (.answer sid to_ sdp)).1 = st := by
  by_cases hl : isLive st sid = true <;>
    by_cases ht : jsTruthyStr to_ && sdp.isSome <;>
      simp [step, hl, answerHandler, ht]

theorem step_ice_state (st : ServerState) (sid : String) (to_ cand : Option String) :
    (step st (.ice sid to_ cand)).1 = st := by
  by_cases hl : isLive st sid = true <;>
    by_cases ht : jsTruthyStr to_ && cand.isSome <;>
      simp [step, hl, iceHandler, ht]

theorem discLoop_state (st : ServerState) (sid : String) (l : List String)
    (h : ∀ r ∈ l, r ≠ sid → (adapterGet st r).length ≠ 0) :
    (discLoop st sid l).1 = st := by
  induction l with
  | nil => rfl
  | cons r rest ih =>
    by_cases hrs : r = sid
    · simp only [discLoop, hrs, if_pos, if_true]
      exact ih (fun x hx => h x (List.mem_cons_of_mem _ hx))
    · have hsz : (adapterGet st r).length ≠ 0 := h r (List.mem_cons_self _ _) hrs
      simp only [discLoop, hrs, if_neg, if_false, hsz]
      exact ih (fun x hx => h x (List.mem_cons_of_mem _ hx))

/-- With duplicate-free adapter keys, the `disconnecting` loop never sees an
empty room (the disconnecting socket is still a member), so the room store is
left untouched and the final state is just the transport cleanup. -/
theorem disconnectHandler_state (st : ServerState) (sid : String)
    (hnd : (st.adapter.map Prod.fst).Nodup) :
    (disconnectHandler st sid).1 =
      ⟨st.sockets.filter (fun p => decide (p.1 ≠ sid)),
       adapterRemove st.adapter sid, st.rooms⟩ := by
  have hloop : (discLoop st sid
      ((st.adapter.filter (fun p => decide (sid ∈ p.2))).map Prod.fst)).1 = st := by
    apply discLoop_state
    intro r hr _
    obtain ⟨q, hq, he⟩ := List.mem_map.mp hr
    have hq1 := List.mem_of_mem_filter hq
    have hq2 : sid ∈ q.2 := by simpa using List.of_mem_filter hq
    have hlk : alook st.adapter q.1 = some q.2 := alook_of_mem_nodup hq1 hnd
    rw [← he]
    simp only [adapterGet, hlk, Option.getD_some]
    intro hlen
    rw [List.length_eq_zero] at hlen
    rw [hlen] at hq2
    simp at hq2
  simp only [disconnectHandler]
  rw [hloop]

theorem inv_step (ids rms : List String) (st : ServerState) (op : Op)
    (hd : ids.all (fun x => decide (x ∉ rms)) = true)
    (hop : opWF ids rms op = true) (hinv : Inv ids rms st) :
    Inv ids rms (step st op).1 := by
  have hd' : ∀ x ∈ ids, x ∉ rms := by simpa using hd
  cases op with
  | chat sid r text => rw [step_chat_state]; exact hinv
  | offer sid to_ sdp => rw [step_offer_state]; exact hinv
  | answer sid to_ sdp => rw [step_answer_state]; exact hinv
  | ice sid to_ cand => rw [step_ice_state]; exact hinv
  | connect sid nm =>
    by_cases hl : isLive st sid = true
    · simpa [step, hl] using hinv
    · have hlf : isLive st sid = false := by simpa using hl
      have hsid : sid ∈ ids := by simpa [opWF] using hop
      have hnone : alook st.adapter sid = none := by
        cases ha : alook st.adapter sid with
        | none => rfl
        | some ms =>
          exfalso
          have hmem := alook_some_mem ha
          rcases hinv.names _ hmem with hid | hrm
          · have hil := (hinv.idRoom _ hmem hid).1
            rw [hlf] at hil
            exact Bool.false_ne_true hil
          · exact hd' sid hsid hrm
      have hsocknone : alook st.sockets sid = none := by
        cases hs : alook st.sockets sid with
        | none => rfl
        | some w => rw [isLive, hs] at hlf; simp at hlf
      have hnotin : sid ∉ st.adapter.map Prod.fst := (alook_eq_none _ _).mp hnone
      have hstep : (step st (.connect sid nm)).1 =
          ⟨st.sockets ++ [(sid, nm)], addToRoom st.adapter sid sid, st.rooms⟩ := by
        simp [step, hlf]
      rw [hstep]
      have hnd' : ((addToRoom st.adapter sid sid).map Prod.fst).Nodup := by
        rw [addToRoom_keys, hnone]
        rw [if_neg (by simp)]
        exact List.Nodup.append hinv.nodupA (List.nodup_singleton _)
          (fun a ha hb => hnotin ((List.mem_singleton.mp hb) ▸ ha))
      have hmem' : ∀ p ∈ addToRoom st.adapter sid sid,
          (p.1 = sid ∧ p.2 = [sid]) ∨ (p ∈ st.adapter ∧ p.1 ≠ sid) := by
        intro p hp
        have hlk := alook_of_mem_nodup hp hnd'
        by_cases hps : p.1 = sid
        · left
          refine ⟨hps, ?_⟩
          rw [hps, alook_addToRoom] at hlk
          simp [hnone] at hlk
          exact hlk.symm
        · right
          rw [alook_addToRoom] at hlk
          simp [hps] at hlk
          exact ⟨alook_some_mem hlk, hps⟩
      constructor
      · exact hnd'
      · intro p hp hpid
        rcases hmem' p hp with ⟨hps, hp2⟩ | ⟨hpad, hps⟩
        · constructor
          · show (alook (st.sockets ++ [(sid, nm)]) p.1).isSome = true
            rw [hps, alook_append_of_none _ hsocknone]
            simp [alook]
          · rw [hp2, hps]
        · have hold := hinv.idRoom p hpad hpid
          constructor
          · show (alook (st.sockets ++ [(sid, nm)]) p.1).isSome = true
            cases hs : alook st.sockets p.1 with
            | none => rw [isLive, hs] at hold; simp at hold
            | some w => rw [alook_append_of_some _ hs]; rfl
          · exact hold.2
      · intro p hp
        rcases hmem' p hp with ⟨hps, _⟩ | ⟨hpad, _⟩
        · left; rw [hps]; exact hsid
        · exact hinv.names p hpad
      · intro p hp hpnid
        rcases hmem' p hp with ⟨hps, _⟩ | ⟨hpad, _⟩
        · exact absurd (hps ▸ hsid) hpnid
        · exact hinv.hasRec p hpad hpnid
      · intro p hp hlen
        rcases hmem' p hp with ⟨hps, hp2⟩ | ⟨hpad, _⟩
        · rw [hp2] at hlen; simp at hlen
        · exact hinv.twoStarted p hpad hlen
      · exact hinv.tsPos
  | join sid room now =>
    cases room with
    | none =>
      have hs : (step st (.join sid none now)).1 = st := by
        by_cases hl : isLive st sid = true <;> simp [step, hl, joinHandler]
      rw [hs]; exact hinv
    | some rr =>
      by_cases hl : isLive st sid = true
      case neg =>
        have hs : (step st (.join sid (some rr) now)).1 = st := by
          simp [step, hl]
        rw [hs]; exact hinv
      case pos =>
      by_cases hrr : rr = ""
      · have hs : (step st (.join sid (some rr) now)).1 = st := by
          simp [step, hl, joinHandler, hrr]
        rw [hs]; exact hinv
      · have hwf2 : rr ∈ rms ∧ 0 < now := by simpa [opWF] using hop
        have hrid : rr ∉ ids := fun h => hd' rr h hwf2.1
        have hstep : (step st (.join sid (some rr) now)).1 =
            ⟨st.sockets, addToRoom st.adapter rr sid, roomsAfterJoin st rr sid now⟩ := by
          simp only [step, hl, if_true, joinHandler_spec st sid rr now hrr]
        rw [hstep]
        have hkeys := addToRoom_keys st.adapter rr sid
        have hnd' : ((addToRoom st.adapter rr sid).map Prod.fst).Nodup := by
          rw [hkeys]
          by_cases hsome : (alook st.adapter rr).isSome = true
          · simpa [hsome] using hinv.nodupA
          · have hn : alook st.adapter rr = none := by
              cases hx : alook st.adapter rr with
              | none => rfl
              | some w => rw [hx] at hsome; simp at hsome
            have hni : rr ∉ st.adapter.map Prod.fst := (alook_eq_none _ _).mp hn
            rw [if_neg hsome]
            exact List.Nodup.append hinv.nodupA (List.nodup_singleton _)
              (fun a ha hb => hni ((List.mem_singleton.mp hb) ▸ ha))
        have hmem' : ∀ p ∈ addToRoom st.adapter rr sid,
            (p.1 = rr ∧ p.2 = joinedMembers st rr sid) ∨
            (p ∈ st.adapter ∧ p.1 ≠ rr) := by
          intro p hp
          have hlk := alook_of_mem_nodup hp hnd'
          by_cases hps : p.1 = rr
          · left
            refine ⟨hps, ?_⟩
            rw [hps, alook_addToRoom, if_pos rfl] at hlk
            have hx := Option.some.inj hlk
            rw [← hx]
            rfl
          · right
            rw [alook_addToRoom] at hlk
            simp [hps] at hlk
            exact ⟨alook_some_mem hlk, hps⟩
        constructor
        · exact hnd'
        · intro p hp hpid
          rcases hmem' p hp with ⟨hps, _⟩ | ⟨hpad, _⟩
          · exact absurd (hps ▸ hpid) hrid
          · have hold := hinv.idRoom p hpad hpid
            exact ⟨hold.1, hold.2⟩
        · intro p hp
          rcases hmem' p hp with ⟨hps, _⟩ | ⟨hpad, _⟩
          · right; rw [hps]; exact hwf2.1
          · exact hinv.names p hpad
        · intro p hp hpnid
          rcases hmem' p hp with ⟨hps, _⟩ | ⟨hpad, hpne⟩
          · show (alook (roomsAfterJoin st rr sid now) p.1).isSome = true
            rw [hps, roomsAfterJoin_alook_self]
            rfl
          · show (alook (roomsAfterJoin st rr sid now) p.1).isSome = true
            rw [roomsAfterJoin_alook_ne st rr sid now p.1 hpne]
            exact hinv.hasRec p hpad hpnid
        · intro p hp hlen
          rcases hmem' p hp with ⟨hps, hp2⟩ | ⟨hpad, hpne⟩
          · rw [hps, roomsAfterJoin_alook_self]
            by_cases hf : fireCond st rr sid
            · exact ⟨_, by rw [if_pos hf], by simp⟩
            · have hjf : jsFalsy (roomRec0 st rr).startedAt = false := by
                rcases hjx : jsFalsy (roomRec0 st rr).startedAt with _ | _
                · rfl
                · exfalso
                  apply hf
                  rw [fireCond, hjx]
                  rw [hp2] at hlen
                  simp [hlen]
              cases hsa : (roomRec0 st rr).startedAt with
              | none => rw [hsa] at hjf; simp [jsFalsy] at hjf
              | some tt =>
                refine ⟨_, by rw [if_neg hf], ?_⟩
                rw [hsa]
                simp
          · obtain ⟨rec, hrec, hrsa⟩ := hinv.twoStarted p hpad hlen
            refine ⟨rec, ?_, hrsa⟩
            rw [roomsAfterJoin_alook_ne st rr sid now p.1 hpne]
            exact hrec
        · intro p hp t hpt
          rcases roomsAfterJoin_mem hp with h | h | ⟨q, _, he⟩
          · exact hinv.tsPos p h t hpt
          · rw [h] at hpt; simp at hpt
          · rw [he] at hpt
            simp only at hpt
            cases hpt
            exact hwf2.2
  | disconnect sid =>
    by_cases hl : isLive st sid = true
    case neg =>
      have hs : (step st (.disconnect sid)).1 = st := by simp [step, hl]
      rw [hs]; exact hinv
    case pos =>
      have hstep : (step st (.disconnect sid)).1 =
          ⟨st.sockets.filter (fun p => decide (p.1 ≠ sid)),
           adapterRemove st.adapter sid, st.rooms⟩ := by
        simp only [step, hl, if_true]
        exact disconnectHandler_state st sid hinv.nodupA
      rw [hstep]
      constructor
      · exact List.Nodup.sublist (adapterRemove_keys_sublist st.adapter sid) hinv.nodupA
      · intro p hp hpid
        obtain ⟨hpne, q, hq, hq1, hq2⟩ := adapterRemove_mem hp
        have hold := hinv.idRoom q hq (hq1 ▸ hpid)
        have hqs : q.1 ≠ sid := by
          intro he
          apply hpne
          rw [hq2, hold.2, he]
          simp
        constructor
        · show (alook (st.sockets.filter (fun p => decide (p.1 ≠ sid))) p.1).isSome = true
          rw [hq1, alook_filter_ne st.sockets sid q.1 hqs]
          exact hold.1
        · rw [hq2, hold.2, hq1]
          simp [hqs]
      · intro p hp
        obtain ⟨_, q, hq, hq1, _⟩ := adapterRemove_mem hp
        rw [hq1]
        exact hinv.names q hq
      · intro p hp hpnid
        obtain ⟨_, q, hq, hq1, _⟩ := adapterRemove_mem hp
        rw [hq1]
        exact hinv.hasRec q hq (hq1 ▸ hpnid)
      · intro p hp hlen
        obtain ⟨_, q, hq, hq1, hq2⟩ := adapterRemove_mem hp
        have hql : 2 ≤ q.2.length := by
          refine le_trans hlen ?_
          rw [hq2]
          exact List.length_filter_le _ _
        obtain ⟨rec, h1, h2⟩ := hinv.twoStarted q hq hql
        exact ⟨rec, by rw [hq1]; exact h1, h2⟩
      · exact hinv.tsPos

theorem inv_initState (ids rms : List String) : Inv ids rms initState := by
  constructor <;> simp [initState]

theorem execFrom_facts (st : ServerState) (ops : List Op) :
    ∀ s ∈ execFrom st ops,
      s.op ∈ ops ∧ s.post = (step s.pre s.op).1 ∧ s.emits = (step s.pre s.op).2 := by
  induction ops generalizing st with
  | nil => intro s hs; simp [execFrom] at hs
  | cons op t ih =>
    intro s hs
    simp only [execFrom] at hs
    rcases List.mem_cons.mp hs with h | h
    · subst h
      exact ⟨List.mem_cons_self _ _, rfl, rfl⟩
    · obtain ⟨h1, h2, h3⟩ := ih _ s h
      exact ⟨List.mem_cons_of_mem _ h1, h2, h3⟩

theorem inv_execFrom (ids rms : List String) (ops : List Op) (st : ServerState)
    (hd : ids.all (fun x => decide (x ∉ rms)) = true)
    (hwf : ops.all (opWF ids rms) = true) (hinv : Inv ids rms st) :
    ∀ s ∈ execFrom st ops, Inv ids rms s.pre ∧ Inv ids rms s.post := by
  induction ops generalizing st with
  | nil => intro s hs; simp [execFrom] at hs
  | cons op t ih =>
    rw [List.all_cons] at hwf
    rw [Bool.and_eq_true] at hwf
    obtain ⟨hop, hwt⟩ := hwf
    intro s hs
    simp only [execFrom] at hs
    rcases List.mem_cons.mp hs with h | h
    · subst h
      exact ⟨hinv, inv_step ids rms st op hd hop hinv⟩
    · exact ih (step st op).1 hwt (inv_step ids rms st op hd hop hinv) s h

theorem firesFor_eq_true {st : ServerState} {op : Op} {r : String}
    (h : firesFor st op r = true) :
    ∃ sid now, op = .join sid (some r) now ∧ isLive st sid = true ∧ r ≠ "" ∧
      fireCond st r sid = true := by
  cases op with
  | connect sid nm => simp [firesFor] at h
  | chat sid room text => simp [firesFor] at h
  | offer sid to_ sdp => simp [firesFor] at h
  | answer sid to_ sdp => simp [firesFor] at h
  | ice sid to_ cand => simp [firesFor] at h
  | disconnect sid => simp [firesFor] at h
  | join sid room now =>
    simp only [firesFor] at h
    rw [Bool.and_eq_true] at h
    obtain ⟨h1, h2⟩ := h
    have hroom : room = some r := by simpa using h1
    subst hroom
    by_cases hl : isLive st sid = true
    case neg =>
      exfalso
      have hlf : isLive st sid = false := by simpa using hl
      simp [step, hlf] at h2
    case pos =>
    by_cases hre : r = ""
    · exfalso
      subst hre
      simp [step, hl, joinHandler] at h2
    · refine ⟨sid, now, rfl, hl, hre, ?_⟩
      simp only [step, hl, if_true, joinHandler_spec st sid r now hre] at h2
      by_cases hf : fireCond st r sid
      · exact hf
      · exfalso
        simp [hf, isTimerStart] at h2

theorem firesFor_join_eq (st : ServerState) (sid r : String) (now : Nat)
    (hl : isLive st sid = true) (hre : r ≠ "") :
    firesFor st (.join sid (some r) now) r = fireCond st r sid := by
  simp only [firesFor, step, hl, if_true, joinHandler_spec st sid r now hre]
  by_cases hf : fireCond st r sid <;> simp [hf, isTimerStart]

/-- A step that does not fire the timer for `r` leaves `r`'s record untouched. -/
theorem step_rooms_nochange (st : ServerState) (op : Op) (r : String)
    (rec : RoomState) (hnd : (st.adapter.map Prod.fst).Nodup)
    (h : alook st.rooms r = some rec) (hnf : firesFor st op r = false) :
    alook (step st op).1.rooms r = some rec := by
  cases op with
  | connect sid nm =>
    by_cases hl : isLive st sid = true
    · simpa [step, hl] using h
    · have hlf : isLive st sid = false := by simpa using hl
      simpa [step, hlf] using h
  | chat sid room text => rw [step_chat_state]; exact h
  | offer sid to_ sdp => rw [step_offer_state]; exact h
  | answer sid to_ sdp => rw [step_answer_state]; exact h
  | ice sid to_ cand => rw [step_ice_state]; exact h
  | disconnect sid =>
    by_cases hl : isLive st sid = true
    · simp only [step, hl, if_true, disconnectHandler_state st sid hnd]
      exact h
    · simpa [step, hl] using h
  | join sid room now =>
    cases room with
    | none =>
      by_cases hl : isLive st sid = true <;> simpa [step, hl, joinHandler] using h
    | some rr =>
      by_cases hl : isLive st sid = true
      case neg => simpa [step, hl] using h
      case pos =>
      by_cases hrr : rr = ""
      · simpa [step, hl, joinHandler, hrr] using h
      · simp only [step, hl, if_true, joinHandler_spec st sid rr now hrr]
        by_cases hr_eq : r = rr
        · subst hr_eq
          have hfc : fireCond st r sid = false := by
            rw [← firesFor_join_eq st sid r now hl hrr]
            exact hnf
          rw [roomsAfterJoin_alook_self, if_neg (by simp [hfc])]
          simp [roomRec0, h]
        · rw [roomsAfterJoin_alook_ne st rr sid now r hr_eq]
          exact h

theorem countFires_zero (ids rms : List String) (ops : List Op) (st : ServerState)
    (r : String) (rec : RoomState) (w : Nat)
    (hd : ids.all (fun x => decide (x ∉ rms)) = true)
    (hwf : ops.all (opWF ids rms) = true) (hinv : Inv ids rms st)
    (h : alook st.rooms r = some rec) (hsa : rec.startedAt = some w) (hw : 0 < w) :
    countFires st ops r = 0 := by
  induction ops generalizing st with
  | nil => rfl
  | cons op t ih =>
    rw [List.all_cons] at hwf
    rw [Bool.and_eq_true] at hwf
    obtain ⟨hop, hwt⟩ := hwf
    have hfire : firesFor st op r = false := by
      rcases hff : firesFor st op r with _ | _
      · rfl
      · exfalso
        obtain ⟨sid, now, hopeq, hl, hre, hfc⟩ := firesFor_eq_true hff
        have hrr0 : roomRec0 st r = rec := by simp [roomRec0, h]
        rw [fireCond, hrr0, hsa] at hfc
        simp [jsFalsy] at hfc
        omega
    rw [countFires, hfire]
    simp only [Bool.false_eq_true, if_false, Nat.zero_add]
    exact ih (step st op).1 hwt (inv_step ids rms st op hd hop hinv)
      (step_rooms_nochange st op r rec hinv.nodupA h hfire)

theorem countFires_le_one (ids rms : List String) (ops : List Op) (st : ServerState)
    (r : String)
    (hd : ids.all (fun x => decide (x ∉ rms)) = true)
    (hwf : ops.all (opWF ids rms) = true) (hinv : Inv ids rms st) :
    countFires st ops r ≤ 1 := by
  induction ops generalizing st with
  | nil => simp [countFires]
  | cons op t ih =>
    rw [List.all_cons] at hwf
    rw [Bool.and_eq_true] at hwf
    obtain ⟨hop, hwt⟩ := hwf
    rcases hff : firesFor st op r with _ | _
    · rw [countFires, hff]
      simp only [Bool.false_eq_true, if_false, Nat.zero_add]
      exact ih (step st op).1 hwt (inv_step ids rms st op hd hop hinv)
    · rw [countFires, hff]
      obtain ⟨sid, now, hopeq, hl, hre, hfc⟩ := firesFor_eq_true hff
      have hnow : 0 < now := by
        rw [hopeq] at hop
        simp [opWF] at hop
        exact hop.2
      have hpost : alook (step st op).1.rooms r =
          some ⟨some now, (roomRec0 st r).duration⟩ := by
        rw [hopeq]
        simp only [step, hl, if_true, joinHandler_spec st sid r now hre]
        rw [roomsAfterJoin_alook_self, if_pos hfc]
      have hz : countFires (step st op).1 t r = 0 :=
        countFires_zero ids rms t (step st op).1 r ⟨some now, (roomRec0 st r).duration⟩
          now hd hwt (inv_step ids rms st op hd hop hinv) hpost rfl hnow
      rw [hz]
      simp

theorem deliveries_singleton (e : Emit) :
    deliveries [e] = e.recipients.map (fun x => (x, e.payload)) := by
  simp [deliveries]

theorem isTimerState_timerStart (a b : Nat) : isTimerState (.timerStart a b) = false := rfl

theorem isTimerState_timerState (a : Option Nat) (b : Nat) :
    isTimerState (.timerState a b) = true := rfl

theorem isTimerState_needOffer (t : String) : isTimerState (.needOffer t) = false := rfl

theorem isTimerState_participants (l : List (String × String)) :
    isTimerState (.participants l) = false := rfl

theorem filter_ts_map_const (l : List String) (p : Payload)
    (hp : isTimerState p = false) :
    (l.map (fun x => (x, p))).filter (fun d => isTimerState d.2) = [] := by
  induction l with
  | nil => simp
  | cons a t ih => simp [List.filter_cons, hp, ih]

/-- C4: a successful join sends exactly one `timer-state` event, to the joiner
only, carrying the room record's current (post-timer-rule) `startedAt` and
`duration`. -/
theorem C4_timer_state_to_joiner (st : ServerState) (sid r : String) (now : Nat)
    (hlive : isLive st sid = true) (hr : r ≠ "") :
    ∃ rec, alook (step st (.join sid (some r) now)).1.rooms r = some rec ∧
      (deliveries (step st (.join sid (some r) now)).2).filter
          (fun d => isTimerState d.2)
        = [(sid, .timerState rec.startedAt rec.duration)] := by
  refine ⟨if fireCond st r sid then ⟨some now, (roomRec0 st r).duration⟩
          else roomRec0 st r, ?_, ?_⟩
  · simp only [step, hlive, if_true, joinHandler_spec st sid r now hr]
    by_cases hf : fireCond st r sid <;>
      simp [hf, roomsAfterJoin_alook_self]
  · simp only [step, hlive, if_true, joinHandler_spec st sid r now hr]
    by_cases hf : fireCond st r sid <;>
      simp [hf, deliveries_append, deliveries, List.filter_append, List.filter_cons,
        filter_ts_map_const, isTimerState_timerStart, isTimerState_timerState,
        isTimerState_needOffer, isTimerState_participants]

/-- Witness for C4 at a concrete input: the late joiner `"C"` receives exactly
one `timer-state`, carrying the already-started timer. -/
theorem C4_timer_state_to_joiner_witness :
    alook (step c6state (.join "C" (some "r1") 7)).1.rooms "r1" = some ⟨some 2, 60⟩ ∧
    (deliveries (step c6state (.join "C" (some "r1") 7)).2).filter
        (fun d => isTimerState d.2)
      = [("C", .timerState (some 2) 60)] := by
  obtain ⟨rec, h1, h2⟩ := C4_timer_state_to_joiner c6state "C" "r1" 7 (by decide) (by decide)
  have hval : alook (step c6state (.join "C" (some "r1") 7)).1.rooms "r1"
      = some (⟨some 2, 60⟩ : RoomState) := by decide
  have hrec : rec = ⟨some 2, 60⟩ := Option.some.inj ((h1.symm).trans hval)
  rw [hrec] at h2
  exact ⟨hval, h2⟩

/-- C5: a chat with a valid room string is dropped with no event at all when the
trimmed text is empty, and otherwise delivers exactly one `chat {from, name,
text}` event, with the trimmed text, to every member of the room — the sender
included whenever the sender is a member.  The server state never changes. -/
theorem C5_chat_trim_broadcast (st : ServerState) (sid r : String)
    (text : Option String) (hlive : isLive st sid = true) (hr : r ≠ "") :
    (step st (.chat sid (some r) text)).1 = st ∧
    (jsTrim (text.getD "") = "" → (step st (.chat sid (some r) text)).2 = []) ∧
    (jsTrim (text.getD "") ≠ "" →
      deliveries (step st (.chat sid (some r) text)).2 =
        (adapterGet st r).map
          (fun m => (m, .chatMsg sid (displayNameOf st sid) (jsTrim (text.getD ""))))) ∧
    (sid ∈ adapterGet st r → jsTrim (text.getD "") ≠ "" →
      (sid, Payload.chatMsg sid (displayNameOf st sid) (jsTrim (text.getD "")))
        ∈ deliveries (step st (.chat sid (some r) text)).2) ∧
    (jsTrim (text.getD "") ≠ "" →
      (step st (.chat sid (some r) text)).2 =
        [⟨adapterGet st r,
          .chatMsg sid (displayNameOf st sid) (jsTrim (text.getD ""))⟩]) := by
  refine ⟨?_, ?_, ?_, ?_, ?_⟩
  · by_cases hmsg : jsTrim (text.getD "") = "" <;>
      simp [step, hlive, chatHandler, hr, hmsg]
  · intro hmsg
    simp [step, hlive, chatHandler, hr, hmsg]
  · intro hmsg
    simp [step, hlive, chatHandler, hr, hmsg, deliveries]
  · intro hmem hmsg
    have hstep : (step st (.chat sid (some r) text)).2 =
        [⟨adapterGet st r, .chatMsg sid (displayNameOf st sid) (jsTrim (text.getD ""))⟩] := by
      simp [step, hlive, chatHandler, hr, hmsg]
    rw [hstep, deliveries_singleton]
    exact List.mem_map_of_mem (fun m => (m, _)) hmem
  · intro hmsg
    simp [step, hlive, chatHandler, hr, hmsg]

/-- Witness for C5 at a concrete input. -/
theorem C5_chat_trim_broadcast_witness :
    (step c1state (.chat "A" (some "r1") (some " hi "))).1 = c1state ∧
    jsTrim ((some " hi " : Option String).getD "") ≠ "" ∧
    deliveries (step c1state (.chat "A" (some "r1") (some " hi "))).2 =
      (adapterGet c1state "r1").map
        (fun m => (m, .chatMsg "A" (displayNameOf c1state "A")
          (jsTrim ((some " hi " : Option String).getD "")))) := by
  have h := C5_chat_trim_broadcast c1state "A" "r1" (some " hi ")
    (by decide) (by decide)
  exact ⟨h.1, by decide, h.2.2.1 (by decide)⟩

/-- C7: a successful join performs, in order: membership update (the adapter
then holds `joinedMembers`), the timer rule, one `timer-state` to the joiner
carrying post-rule values, one `need-offer {targetId: joiner}` to every other
member and never to the joiner, then the participants broadcast of the updated
room. -/
theorem C7_join_effect_order (st : ServerState) (sid r : String) (now : Nat)
    (hlive : isLive st sid = true) (hr : r ≠ "") :
    adapterGet (step st (.join sid (some r) now)).1 r = joinedMembers st r sid ∧
    sid ∈ joinedMembers st r sid ∧
    (step st (.join sid (some r) now)).2 =
      (if fireCond st r sid then
        [⟨joinedMembers st r sid, .timerStart now (roomRec0 st r).duration⟩] else [])
      ++ [⟨[sid], .timerState
            (if fireCond st r sid then some now else (roomRec0 st r).startedAt)
            (roomRec0 st r).duration⟩]
      ++ [⟨(joinedMembers st r sid).filter (fun x => decide (x ≠ sid)),
           .needOffer sid⟩]
      ++ [⟨joinedMembers st r sid,
           .participants ((joinedMembers st r sid).map
             (fun m => (m, displayNameOf st m)))⟩] ∧
    sid ∉ (joinedMembers st r sid).filter (fun x => decide (x ≠ sid)) := by
  refine ⟨?_, ?_, ?_, ?_⟩
  · simp only [step, hlive, if_true, joinHandler_spec st sid r now hr]
    by_cases hf : fireCond st r sid <;>
      simp [hf, adapterGet, alook_addToRoom, joinedMembers]
  · by_cases hm : sid ∈ adapterGet st r <;> simp [joinedMembers, hm]
  · simp only [step, hlive, if_true, joinHandler_spec st sid r now hr]
  · simp [List.mem_filter]

/-- Witness for C7 at a concrete input. -/
theorem C7_join_effect_order_witness :
    adapterGet (step c6state (.join "C" (some "r1") 7)).1 "r1"
        = joinedMembers c6state "r1" "C" ∧
    "C" ∈ joinedMembers c6state "r1" "C" ∧
    (step c6state (.join "C" (some "r1") 7)).2 =
      (if fireCond c6state "r1" "C" then
        [⟨joinedMembers c6state "r1" "C",
          .timerStart 7 (roomRec0 c6state "r1").duration⟩] else [])
      ++ [⟨["C"], .timerState
            (if fireCond c6state "r1" "C" then some 7
             else (roomRec0 c6state "r1").startedAt)
            (roomRec0 c6state "r1").duration⟩]
      ++ [⟨(joinedMembers c6state "r1" "C").filter (fun x => decide (x ≠ "C")),
           .needOffer "C"⟩]
      ++ [⟨joinedMembers c6state "r1" "C",
           .participants ((joinedMembers c6state "r1" "C").map
             (fun m => (m, displayNameOf c6state m)))⟩] ∧
    "C" ∉ (joinedMembers c6state "r1" "C").filter (fun x => decide (x ≠ "C")) :=
  C7_join_effect_order c6state "C" "r1" 7 (by decide) (by decide)

/-- C10: a chat to a room the sender is not a member of is still delivered to
every member of the room, and the sender receives no copy. -/
theorem C10_nonmember_chat (st : ServerState) (sid r : String)
    (text : Option String) (hlive : isLive st sid = true) (hr : r ≠ "")
    (hmem : sid ∉ adapterGet st r) (hex : adapterGet st r ≠ [])
    (hmsg : jsTrim (text.getD "") ≠ "") :
    deliveries (step st (.chat sid (some r) text)).2 =
      (adapterGet st r).map
        (fun m => (m, .chatMsg sid (displayNameOf st sid) (jsTrim (text.getD "")))) ∧
    ∀ q ∈ deliveries (step st (.chat sid (some r) text)).2, q.1 ≠ sid := by
  have h1 : deliveries (step st (.chat sid (some r) text)).2 =
      (adapterGet st r).map
        (fun m => (m, .chatMsg sid (displayNameOf st sid) (jsTrim (text.getD "")))) := by
    simp [step, hlive, chatHandler, hr, hmsg, deliveries]
  refine ⟨h1, ?_⟩
  intro q hq
  rw [h1] at hq
  obtain ⟨m, hm, hqe⟩ := List.mem_map.mp hq
  intro hqs
  apply hmem
  have hms : m = sid := by rw [← hqe] at hqs; exact hqs
  rwa [hms] at hm

/-- Witness for C10 at a concrete input: `"C"` never joined room `"r1"`. -/
theorem C10_nonmember_chat_witness :
    deliveries (step c6state (.chat "C" (some "r1") (some "yo"))).2 =
      (adapterGet c6state "r1").map
        (fun m => (m, .chatMsg "C" (displayNameOf c6state "C")
          (jsTrim ((some "yo" : Option String).getD "")))) :=
  (C10_nonmember_chat c6state "C" "r1" (some "yo") (by decide) (by decide)
    (by decide) (by decide) (by decide)).1

/-- C1 fails on the code at a concrete input: with Alice and Bob in `"r1"`,
Alice's disconnect broadcasts a `participants` list that still contains Alice
(the `disconnecting` handler reads the adapter before socket.io removes the
socket), although once the disconnect completes the room's membership is
exactly `["B"]`. -/
theorem C1_disconnect_stale_broadcast :
    (step c1state (.disconnect "A")).2 =
      [⟨["A", "B"], .participants [("A", "Alice"), ("B", "Bob")]⟩] ∧
    adapterGet (step c1state (.disconnect "A")).1 "r1" = ["B"] := by
  exact ⟨rfl, rfl⟩

/-- C2 fails on the code at a concrete input: after every member of `"r1"` has
disconnected the membership is zero and no session is left, yet the room's
record survives in the store with its old `startedAt`; a fresh join by `"C"`
then observes the leftover timer state (`timer-state` carries `startedAt = 6`
from the dead session). -/
theorem C2_empty_room_record_leak :
    c2state.sockets = [] ∧
    adapterGet c2state "r1" = [] ∧
    alook c2state.rooms "r1" = some ⟨some 6, 60⟩ ∧
    (step c2stateC (.join "C" (some "r1") 100)).2 =
      [⟨["C"], .timerState (some 6) 60⟩, ⟨[], .needOffer "C"⟩,
       ⟨["C"], .participants [("C", "Guest")]⟩] := by
  exact ⟨rfl, rfl, rfl, rfl⟩

/-- C6 fails on the code as stated: the target string `"r1"` of this `offer`
does not resolve to a live connection (it is a client-created room name), yet
`io.to("r1")` resolves it as a room and the offer is delivered to both of its
members. -/
theorem C6_counterexample_room_target :
    isLive c6state "r1" = false ∧
    deliveries (step c6state (.offer "C" (some "r1") (some "x"))).2 =
      [("A", .offerMsg "C" "x"), ("B", .offerMsg "C" "x")] := by
  exact ⟨rfl, rfl⟩

/-- C6 amended: a relay message whose target is missing, empty or resolves to
no adapter room at all (in particular, to no live connection and to no
populated room) produces no delivery and leaves the state unchanged; a `join`
or `chat` with a missing or empty room string, or a `chat` with a missing
text, is likewise a silent no-op. -/
theorem C6_relay_silent_drop (st : ServerState) (sid : String)
    (to_ sdp cand r text : Option String) (now : Nat) :
    (jsTruthyStr to_ = false ∨ sdp = none →
      step st (.offer sid to_ sdp) = (st, []) ∧ step st (.answer sid to_ sdp) = (st, [])) ∧
    (jsTruthyStr to_ = false ∨ cand = none → step st (.ice sid to_ cand) = (st, [])) ∧
    (∀ s, to_ = some s → adapterGet st s = [] →
      (step st (.offer sid to_ sdp)).1 = st ∧
      deliveries (step st (.offer sid to_ sdp)).2 = [] ∧
      (step st (.answer sid to_ sdp)).1 = st ∧
      deliveries (step st (.answer sid to_ sdp)).2 = [] ∧
      (step st (.ice sid to_ cand)).1 = st ∧
      deliveries (step st (.ice sid to_ cand)).2 = []) ∧
    (step st (.join sid none now) = (st, [])) ∧
    (step st (.join sid (some "") now) = (st, [])) ∧
    (step st (.chat sid none text) = (st, [])) ∧
    (step st (.chat sid (some "") text) = (st, [])) ∧
    (text = none → step st (.chat sid r text) = (st, [])) := by
  refine ⟨?_, ?_, ?_, ?_, ?_, ?_, ?_, ?_⟩
  · rintro (h | h) <;>
      by_cases hl : isLive st sid = true <;>
        simp [step, hl, offerHandler, answerHandler, h]
  · rintro (h | h) <;>
      by_cases hl : isLive st sid = true <;>
        simp [step, hl, iceHandler, h]
  · rintro s rfl hempty
    by_cases hl : isLive st sid = true <;>
      by_cases hs : jsTruthyStr (some s) = true <;>
        by_cases hsdp : sdp.isSome <;>
          by_cases hcand : cand.isSome <;>
            simp [step, hl, offerHandler, answerHandler, iceHandler, hs, hsdp, hcand,
              hempty, deliveries]
  · by_cases hl : isLive st sid = true <;> simp [step, hl, joinHandler]
  · by_cases hl : isLive st sid = true <;> simp [step, hl, joinHandler]
  · by_cases hl : isLive st sid = true <;> simp [step, hl, chatHandler]
  · by_cases hl : isLive st sid = true <;> simp [step, hl, chatHandler]
  · rintro rfl
    by_cases hl : isLive st sid = true
    · cases r with
      | none => simp [step, hl, chatHandler]
      | some rr =>
        by_cases hrr : rr = "" <;> simp [step, hl, chatHandler, hrr, jsTrim, dropLeadingWs]
    · simp [step, hl]

theorem addToRoom_idem {ad : List (String × List String)} {r sid : String}
    {ms : List String} (h : alook ad r = some ms) (hm : sid ∈ ms) :
    addToRoom ad r sid = ad := by
  induction ad with
  | nil => simp [alook] at h
  | cons p t ih =>
    by_cases hpr : p.1 = r
    · simp only [alook, hpr, if_pos, if_true] at h
      have hp2 : p.2 = ms := by simpa using h
      simp only [addToRoom, hpr, if_pos, if_true, hp2 ▸ hm, List.cons.injEq]
      exact ⟨by rw [← hpr], trivial⟩
    · simp only [alook, hpr, if_neg, if_false] at h
      simp [addToRoom, hpr, ih h]

/-- C3: along any well-formed trace, `timer-start` fires for a room at most
once; a firing join moves the membership from below 2 to 2 or more while the
stored `startedAt` is still `none`; a set `startedAt` is never changed or
dropped; and the record's `startedAt` can change from `none` to a timestamp
only at a step that emits `timer-start` for that room. -/
theorem C3_timer_start_once (ids rms : List String) (ops : List Op) (r : String)
    (hwf : traceWF ids rms ops = true) :
    countFires initState ops r ≤ 1 ∧
    (∀ s ∈ execTrace ops, firesFor s.pre s.op r = true →
      (adapterGet s.pre r).length < 2 ∧ 2 ≤ (adapterGet s.post r).length ∧
      ∀ rec, alook s.pre.rooms r = some rec → rec.startedAt = none) ∧
    (∀ s ∈ execTrace ops, ∀ rec w, alook s.pre.rooms r = some rec →
      rec.startedAt = some w → alook s.post.rooms r = some rec) ∧
    (∀ s ∈ execTrace ops, ∀ rec rec', alook s.pre.rooms r = some rec →
      alook s.post.rooms r = some rec' → rec.startedAt = none →
      rec'.startedAt ≠ none → firesFor s.pre s.op r = true) := by
  rw [traceWF, Bool.and_eq_true] at hwf
  obtain ⟨hd, hops⟩ := hwf
  refine ⟨countFires_le_one ids rms ops initState r hd hops (inv_initState ids rms),
    ?_, ?_, ?_⟩
  · intro s hs hfire
    obtain ⟨hinvpre, _⟩ :=
      inv_execFrom ids rms ops initState hd hops (inv_initState ids rms) s hs
    obtain ⟨hopmem, hpost, _⟩ := execFrom_facts initState ops s hs
    obtain ⟨sid, now, hopeq, hl, hre, hfc⟩ := firesFor_eq_true hfire
    refine ⟨?_, ?_, ?_⟩
    · by_contra hc
      push_neg at hc
      have hms : ∃ ms, alook s.pre.adapter r = some ms := by
        cases hx : alook s.pre.adapter r with
        | none => rw [adapterGet, hx] at hc; simp at hc
        | some ms => exact ⟨ms, rfl⟩
      obtain ⟨ms, hmsx⟩ := hms
      have hpm : (r, ms) ∈ s.pre.adapter := alook_some_mem hmsx
      have hlen : 2 ≤ ms.length := by rw [adapterGet, hmsx] at hc; simpa using hc
      obtain ⟨rec2, hrec2, hne2⟩ := hinvpre.twoStarted (r, ms) hpm hlen
      cases hsa2 : rec2.startedAt with
      | none => exact hne2 hsa2
      | some w =>
        have hw : 0 < w := hinvpre.tsPos (r, rec2) (alook_some_mem hrec2) w hsa2
        have hrr0 : roomRec0 s.pre r = rec2 := by simp [roomRec0, hrec2]
        rw [fireCond, hrr0, hsa2] at hfc
        simp [jsFalsy] at hfc
        omega
    · rw [hpost, hopeq]
      simp only [step, hl, if_true, joinHandler_spec s.pre sid r now hre]
      have hag : adapterGet ⟨s.pre.sockets, addToRoom s.pre.adapter r sid,
          roomsAfterJoin s.pre r sid now⟩ r = joinedMembers s.pre r sid := by
        simp [adapterGet, alook_addToRoom, joinedMembers]
      rw [hag]
      rw [fireCond, Bool.and_eq_true] at hfc
      simpa using hfc.1
    · intro rec hrec
      have hrr0 : roomRec0 s.pre r = rec := by simp [roomRec0, hrec]
      rw [fireCond, hrr0, Bool.and_eq_true] at hfc
      cases hsa : rec.startedAt with
      | none => rfl
      | some w =>
        exfalso
        have hw : 0 < w := hinvpre.tsPos (r, rec) (alook_some_mem hrec) w hsa
        have hjf := hfc.2
        rw [hsa] at hjf
        simp [jsFalsy] at hjf
        omega
  · intro s hs rec w hrec hsa
    obtain ⟨hinvpre, _⟩ :=
      inv_execFrom ids rms ops initState hd hops (inv_initState ids rms) s hs
    obtain ⟨_, hpost, _⟩ := execFrom_facts initState ops s hs
    have hw : 0 < w := hinvpre.tsPos (r, rec) (alook_some_mem hrec) w hsa
    have hnf : firesFor s.pre s.op r = false := by
      rcases hff : firesFor s.pre s.op r with _ | _
      · rfl
      · exfalso
        obtain ⟨sid, now, hopeq, hl, hre, hfc⟩ := firesFor_eq_true hff
        have hrr0 : roomRec0 s.pre r = rec := by simp [roomRec0, hrec]
        rw [fireCond, hrr0, hsa, Bool.and_eq_true] at hfc
        have hjf := hfc.2
        simp [jsFalsy] at hjf
        omega
    rw [hpost]
    exact step_rooms_nochange s.pre s.op r rec hinvpre.nodupA hrec hnf
  · intro s hs rec rec' hrec hrec' hnone hne
    obtain ⟨hinvpre, _⟩ :=
      inv_execFrom ids rms ops initState hd hops (inv_initState ids rms) s hs
    obtain ⟨_, hpost, _⟩ := execFrom_facts initState ops s hs
    rcases hff : firesFor s.pre s.op r with _ | _
    · exfalso
      have hkeep := step_rooms_nochange s.pre s.op r rec hinvpre.nodupA hrec hff
      rw [hpost, hkeep] at hrec'
      have heq : rec = rec' := Option.some.inj hrec'
      rw [← heq] at hne
      exact hne hnone
    · rfl

/-- Witness for C3 at a concrete trace. -/
theorem C3_timer_start_once_witness :
    countFires initState rejoinOps "r1" ≤ 1 :=
  (C3_timer_start_once ["A", "B"] ["r1"] rejoinOps "r1" (by decide)).1

/-- C8: a join to an unseen room id creates its record as
`{startedAt: none, duration: 60}`; a join to an existing room reuses the
record (at most the timer rule's `startedAt` write is applied to it). -/
theorem C8_room_init_reuse (ids rms : List String) (ops : List Op)
    (s : StepRec) (sid r : String) (now : Nat)
    (hwf : traceWF ids rms ops = true) (hs : s ∈ execTrace ops)
    (hop : s.op = .join sid (some r) now)
    (hl : isLive s.pre sid = true) (hre : r ≠ "") :
    (alook s.pre.rooms r = none → alook s.post.rooms r = some ⟨none, 60⟩) ∧
    (∀ rec, alook s.pre.rooms r = some rec →
      alook s.post.rooms r = some rec ∨
      alook s.post.rooms r = some ⟨some now, rec.duration⟩) := by
  rw [traceWF, Bool.and_eq_true] at hwf
  obtain ⟨hd, hops⟩ := hwf
  obtain ⟨hinvpre, _⟩ :=
    inv_execFrom ids rms ops initState hd hops (inv_initState ids rms) s hs
  obtain ⟨hopmem, hpost, _⟩ := execFrom_facts initState ops s hs
  have hd' : ∀ x ∈ ids, x ∉ rms := by simpa using hd
  have hrm : r ∈ rms := by
    have hwfop := (List.all_eq_true.mp hops) _ hopmem
    rw [hop] at hwfop
    simp [opWF] at hwfop
    exact hwfop.1
  have hrid : r ∉ ids := fun hx => hd' r hx hrm
  constructor
  · intro hnone
    have had : alook s.pre.adapter r = none := by
      cases hx : alook s.pre.adapter r with
      | none => rfl
      | some ms =>
        exfalso
        have hpm := alook_some_mem hx
        have hrc := hinvpre.hasRec (r, ms) hpm hrid
        rw [hnone] at hrc
        simp at hrc
    have hjm : joinedMembers s.pre r sid = [sid] := by
      simp [joinedMembers, adapterGet, had]
    have hfc : fireCond s.pre r sid = false := by
      rw [fireCond, hjm]
      simp
    rw [hpost, hop]
    simp only [step, hl, if_true, joinHandler_spec s.pre sid r now hre]
    rw [roomsAfterJoin_alook_self, if_neg (by simp [hfc])]
    simp [roomRec0, hnone]
  · intro rec hrec
    rw [hpost, hop]
    simp only [step, hl, if_true, joinHandler_spec s.pre sid r now hre]
    rw [roomsAfterJoin_alook_self]
    by_cases hf : fireCond s.pre r sid
    · right
      rw [if_pos hf]
      simp [roomRec0, hrec]
    · left
      rw [if_neg hf]
      simp [roomRec0, hrec]

/-- Witness for C8 at concrete steps: the creating join of `"A"` and the
record-reusing join of `"B"`. -/
theorem C8_room_init_reuse_witness :
    alook stepJoinA.post.rooms "r1" = some ⟨none, 60⟩ ∧
    (alook stepJoinB.post.rooms "r1" = some ⟨none, 60⟩ ∨
     alook stepJoinB.post.rooms "r1" = some ⟨some 2, 60⟩) := by
  constructor
  · exact (C8_room_init_reuse ["A", "B"] ["r1"] rejoinOps stepJoinA "A" "r1" 1
      (by decide) (by decide) (by decide) (by decide) (by decide)).1 (by decide)
  · exact (C8_room_init_reuse ["A", "B"] ["r1"] rejoinOps stepJoinB "B" "r1" 2
      (by decide) (by decide) (by decide) (by decide) (by decide)).2
      ⟨none, 60⟩ (by decide)

/-- C9: a second join by an existing member changes neither the adapter nor the
room store, but still re-emits `timer-state` to the joiner, `need-offer` to
the other members and the participants broadcast. -/
theorem C9_rejoin_idempotent (ids rms : List String) (ops : List Op)
    (s : StepRec) (sid r : String) (now : Nat)
    (hwf : traceWF ids rms ops = true) (hs : s ∈ execTrace ops)
    (hop : s.op = .join sid (some r) now)
    (hl : isLive s.pre sid = true) (hre : r ≠ "")
    (hmem : sid ∈ adapterGet s.pre r) :
    s.post.adapter = s.pre.adapter ∧ s.post.rooms = s.pre.rooms ∧
    ∃ rec, alook s.pre.rooms r = some rec ∧
      s.emits = [⟨[sid], .timerState rec.startedAt rec.duration⟩,
                 ⟨(adapterGet s.pre r).filter (fun x => decide (x ≠ sid)),
                  .needOffer sid⟩,
                 ⟨adapterGet s.pre r,
                  .participants ((adapterGet s.pre r).map
                    (fun m => (m, displayNameOf s.pre m)))⟩] := by
  rw [traceWF, Bool.and_eq_true] at hwf
  obtain ⟨hd, hops⟩ := hwf
  obtain ⟨hinvpre, _⟩ :=
    inv_execFrom ids rms ops initState hd hops (inv_initState ids rms) s hs
  obtain ⟨hopmem, hpost, hemits⟩ := execFrom_facts initState ops s hs
  have hd' : ∀ x ∈ ids, x ∉ rms := by simpa using hd
  have hrm : r ∈ rms := by
    have hwfop := (List.all_eq_true.mp hops) _ hopmem
    rw [hop] at hwfop
    simp [opWF] at hwfop
    exact hwfop.1
  have hrid : r ∉ ids := fun hx => hd' r hx hrm
  have hms : ∃ ms, alook s.pre.adapter r = some ms := by
    cases hx : alook s.pre.adapter r with
    | none => rw [adapterGet, hx] at hmem; simp at hmem
    | some ms => exact ⟨ms, rfl⟩
  obtain ⟨ms, hmsx⟩ := hms
  have hpm : (r, ms) ∈ s.pre.adapter := alook_some_mem hmsx
  have hrecs : (alook s.pre.rooms r).isSome = true := hinvpre.hasRec (r, ms) hpm hrid
  obtain ⟨rec, hrec⟩ := Option.isSome_iff_exists.mp hrecs
  have hjm : joinedMembers s.pre r sid = adapterGet s.pre r := by
    simp [joinedMembers, hmem]
  have hfc : fireCond s.pre r sid = false := by
    rw [fireCond, hjm]
    by_cases hlen : 2 ≤ (adapterGet s.pre r).length
    · have hlen2 : 2 ≤ ms.length := by rw [adapterGet, hmsx] at hlen; simpa using hlen
      obtain ⟨rec2, hrec2, hne2⟩ := hinvpre.twoStarted (r, ms) hpm hlen2
      cases hsa2 : rec2.startedAt with
      | none => exact absurd hsa2 hne2
      | some w =>
        have hw : 0 < w := hinvpre.tsPos (r, rec2) (alook_some_mem hrec2) w hsa2
        have hrr0 : roomRec0 s.pre r = rec2 := by simp [roomRec0, hrec2]
        rw [hrr0, hsa2]
        have hwne : (w == 0) = false := by simpa using Nat.pos_iff_ne_zero.mp hw
        simp [jsFalsy, hwne]
    · have hdl : (decide (2 ≤ (adapterGet s.pre r).length)) = false := by
        simpa using hlen
      rw [hdl]
      simp
  have hadeq : addToRoom s.pre.adapter r sid = s.pre.adapter := by
    have hmemms : sid ∈ ms := by rw [adapterGet, hmsx] at hmem; simpa using hmem
    exact addToRoom_idem hmsx hmemms
  have hrr0 : roomRec0 s.pre r = rec := by simp [roomRec0, hrec]
  refine ⟨?_, ?_, rec, hrec, ?_⟩
  · rw [hpost, hop]
    simp only [step, hl, if_true, joinHandler_spec s.pre sid r now hre]
    exact hadeq
  · rw [hpost, hop]
    simp only [step, hl, if_true, joinHandler_spec s.pre sid r now hre]
    simp [roomsAfterJoin, hfc, hrec]
  · rw [hemits, hop]
    simp only [step, hl, if_true, joinHandler_spec s.pre sid r now hre]
    simp [hfc, hjm, hrr0]

/-- Witness for C9 at a concrete step: `"B"` joining `"r1"` a second time. -/
theorem C9_rejoin_idempotent_witness :
    stepRejoinB.post.adapter = stepRejoinB.pre.adapter ∧
    stepRejoinB.post.rooms = stepRejoinB.pre.rooms := by
  have h := C9_rejoin_idempotent ["A", "B"] ["r1"] rejoinOps stepRejoinB "B" "r1" 3
    (by decide) (by decide) (by decide) (by decide) (by decide) (by decide)
  exact ⟨h.1, h.2.1⟩

/-- Witness for the amended C6 at concrete inputs. -/
theorem C6_relay_silent_drop_witness :
    (step c6state (.offer "A" (some "dead") (some "x"))).1 = c6state ∧
    deliveries (step c6state (.offer "A" (some "dead") (some "x"))).2 = [] ∧
    step c6state (.offer "A" none (some "x")) = (c6state, []) ∧
    step c6state (.chat "A" (some "") (some "hi")) = (c6state, []) := by
  have h := C6_relay_silent_drop c6state "A" (some "dead") (some "x") (some "x")
    (some "") (some "hi") 0
  have h2 := C6_relay_silent_drop c6state "A" none (some "x") (some "x")
    (some "") (some "hi") 0
  have hd := h.2.2.1 "dead" rfl (by decide)
  exact ⟨hd.1, hd.2.1, (h2.1 (Or.inl (by decide))).1, h.2.2.2.2.2.2.1⟩

end SocketServer
